import Mathlib

/-!
Shallow embedding of the WeissDB card-search application (src/app.py) and
proofs of its specified properties.

The repository is glue code over two external collaborators: a vector
database ("chroma" collection) and a sentence-embedding model. The pure
functions of the repository (`build_filter_dict`, `get_unique_values`,
`smart_search`, `dumb_search`, `get_filtered_cards`) are embedded here as
Lean functions. External calls (`collection.get`, `collection.query`,
`model.encode`) are passed in as explicit fallible oracles
(`Except Err`-valued functions), so that error propagation and call counts
are observable. Python exceptions are modelled by the `Except` monad;
Python `None` in an optional slot by `Option`.
-/

namespace WeissDB

/-- A metadata value stored in the collection: either a Python string or a
non-string value (number, null, ...), which `str.strip` rejects. -/
inductive MetaVal : Type where
  | str (s : String)
  | other
deriving DecidableEq

/-- A record's metadata mapping, as an association list (Python dict). -/
abbrev Metadata := List (String × MetaVal)

/-- Errors: `attributeError` models Python's AttributeError from calling
`.strip()` on a non-string; `failure` models any error raised by the
external embedding model or vector database. -/
inductive Err : Type where
  | attributeError
  | failure (msg : String)
deriving DecidableEq

/-- Python `str.strip()`: remove leading and trailing whitespace. Written
over the character list so that it evaluates structurally. -/
def strip (s : String) : String :=
  String.mk (((s.data.dropWhile Char.isWhitespace).reverse.dropWhile Char.isWhitespace).reverse)

/-- Python `md.get(key, default)` on a metadata dict. -/
def mdGet (md : Metadata) (k : String) (d : MetaVal) : MetaVal :=
  match md.find? (fun kv => kv.1 == k) with
  | some kv => kv.2
  | none => d

/-- Python `value.strip()` where `value` came out of a metadata dict:
raises AttributeError unless the value is a string. -/
def stripVal : MetaVal → Except Err String
  | .str s => .ok (strip s)
  | .other => .error .attributeError

/-- Python `set.add`: the accumulator keeps one copy of each value. -/
def setAdd (s : List String) (v : String) : List String :=
  if v ∈ s then s else v :: s

/-- Code-point lexicographic order on strings (Python string comparison),
as the order of the underlying character lists. -/
def strLe (a b : String) : Prop := a.data ≤ b.data

instance : DecidableRel strLe := fun a b => inferInstanceAs (Decidable (a.data ≤ b.data))

instance : IsTotal String strLe := ⟨fun a b => le_total a.data b.data⟩

instance : IsTrans String strLe := ⟨fun _ _ _ h₁ h₂ => le_trans h₁ h₂⟩

/-- Python `sorted` on a list of strings. -/
def pySorted (l : List String) : List String := l.insertionSort strLe

/-- The body of the `for md in metadatas` loop of `get_unique_values`
(src/app.py lines 49-52): `val = md.get(field_name, "").strip()`;
`if val: unique_vals.add(val)`. Processes one page of metadatas. -/
def pageVals (field : String) : List Metadata → List String → Except Err (List String)
  | [], acc => .ok acc
  | md :: rest, acc =>
    match stripVal (mdGet md field (.str "")) with
    | .error e => .error e
    | .ok val => pageVals field rest (if val ≠ "" then setAdd acc val else acc)

/-- The pagination loop of `get_unique_values` (src/app.py lines 44-53) over
a collection whose stored metadatas are `records`:
`collection.get(include=["metadatas"], limit=1000, offset=offset)` is
modelled as the slice `(records.drop offset).take 1000`; the loop stops
when a page returns no records, else accumulates and advances the offset
by the page size. The second component counts the `collection.get` calls
performed. -/
def guvLoop (records : List Metadata) (field : String) (offset : Nat) (acc : List String) :
    Except Err (List String) × Nat :=
  if ((records.drop offset).take 1000).isEmpty then (.ok acc, 1)
  else
    match pageVals field ((records.drop offset).take 1000) acc with
    | .error e => (.error e, 1)
    | .ok acc' =>
      let r := guvLoop records field (offset + 1000) acc'
      (r.1, r.2 + 1)
termination_by records.length - offset
decreasing_by
  rename_i h
  simp only [List.isEmpty_iff, List.take_eq_nil_iff, List.drop_eq_nil_iff] at h
  omega

/-- `get_unique_values` (src/app.py lines 40-54): scan all records, collect
the distinct non-empty stripped values of `field`, return them sorted. -/
def get_unique_values (records : List Metadata) (field : String) : Except Err (List String) :=
  match (guvLoop records field 0 []).1 with
  | .error e => .error e
  | .ok unique_vals => .ok (pySorted unique_vals)

/-- Number of `collection.get` calls `get_unique_values` performs. -/
def guvReads (records : List Metadata) (field : String) : Nat :=
  (guvLoop records field 0 []).2

/-- The same pagination loop over a fallible external reader
(`collection.get` may raise). `getPage limit offset` is the external call.
Totality over an arbitrary reader needs a fuel bound on the number of
iterations; the fuel-exhaustion result is a modelling artifact never
reached in the theorems below, which only examine iterations that run. -/
def guvLoopF (getPage : Nat → Nat → Except Err (List Metadata)) (field : String) :
    Nat → Nat → List String → Except Err (List String)
  | 0, _, acc => .ok acc
  | fuel + 1, offset, acc =>
    match getPage 1000 offset with
    | .error e => .error e
    | .ok metadatas =>
      if metadatas.isEmpty then .ok acc
      else
        match pageVals field metadatas acc with
        | .error e => .error e
        | .ok acc' => guvLoopF getPage field fuel (offset + 1000) acc'

/-- `get_unique_values` over the fallible reader. -/
def get_unique_valuesF (getPage : Nat → Nat → Except Err (List Metadata)) (field : String)
    (fuel : Nat) : Except Err (List String) :=
  match guvLoopF getPage field fuel 0 [] with
  | .error e => .error e
  | .ok unique_vals => .ok (pySorted unique_vals)

/-- Whether the stored value of `field` in a record (after the `md.get`
default) is a string, so that `.strip()` succeeds. -/
def strOnly (md : Metadata) (field : String) : Bool :=
  match mdGet md field (.str "") with
  | .str _ => true
  | .other => false

/-- The stripped string value a record contributes for `field` (meaningful
under the `strOnly` precondition; records missing the field contribute the
empty string, which is then dropped). -/
def recordVal (md : Metadata) (field : String) : String :=
  match mdGet md field (.str "") with
  | .str s => strip s
  | .other => ""

/-- Pure form of the loop body step: add the record's value when non-empty. -/
def addVal (acc : List String) (v : String) : List String :=
  if v ≠ "" then setAdd acc v else acc

/-- A facet selection, as passed to `build_filter_dict`: a Python string or
`None` (`none`). The UI always passes strings; `none` models the general
Python call. -/
abbrev Sel := Option String

/-- Python truthiness of a selection: `None` and `""` are falsy. -/
def truthy : Sel → Bool
  | none => false
  | some s => !(s == "")

/-- The comprehension guard of `build_filter_dict` (src/app.py line 66):
`if v and v != "(No Filter)"`. -/
def keep (v : Sel) : Bool := truthy v && !(v == some "(No Filter)")

/-- A value inside a filter dictionary: a string, or (under the `"$and"`
key) a list of single-condition dictionaries. -/
inductive FilterVal : Type where
  | str (s : String)
  | conj (l : List (List (String × FilterVal)))

/-- A filter dictionary, as an association list preserving insertion order. -/
abbrev Filter := List (String × FilterVal)

mutual

def FilterVal.beq : FilterVal → FilterVal → Bool
  | .str a, .str b => a == b
  | .conj a, .conj b => beqConjList a b
  | _, _ => false

def beqConjList : List (List (String × FilterVal)) → List (List (String × FilterVal)) → Bool
  | [], [] => true
  | a :: as, b :: bs => beqPairs a b && beqConjList as bs
  | _, _ => false

def beqPairs : List (String × FilterVal) → List (String × FilterVal) → Bool
  | [], [] => true
  | (k₁, v₁) :: as, (k₂, v₂) :: bs => k₁ == k₂ && FilterVal.beq v₁ v₂ && beqPairs as bs
  | _, _ => false

end

mutual

theorem FilterVal.beq_iff : ∀ a b : FilterVal, FilterVal.beq a b = true ↔ a = b
  | .str a, .str b => by simp [FilterVal.beq]
  | .str a, .conj b => by simp [FilterVal.beq]
  | .conj a, .str b => by simp [FilterVal.beq]
  | .conj a, .conj b => by simp [FilterVal.beq, beqConjList_iff a b]

theorem beqConjList_iff : ∀ a b : List (List (String × FilterVal)), beqConjList a b = true ↔ a = b
  | [], [] => by simp [beqConjList]
  | [], _ :: _ => by simp [beqConjList]
  | _ :: _, [] => by simp [beqConjList]
  | a :: as, b :: bs => by
      simp [beqConjList, Bool.and_eq_true, beqPairs_iff a b, beqConjList_iff as bs]

theorem beqPairs_iff : ∀ a b : List (String × FilterVal), beqPairs a b = true ↔ a = b
  | [], [] => by simp [beqPairs]
  | [], _ :: _ => by simp [beqPairs]
  | _ :: _, [] => by simp [beqPairs]
  | (k₁, v₁) :: as, (k₂, v₂) :: bs => by
      simp [beqPairs, Bool.and_eq_true, FilterVal.beq_iff v₁ v₂, beqPairs_iff as bs, and_assoc]

end

instance : DecidableEq FilterVal := fun a b =>
  decidable_of_iff _ (FilterVal.beq_iff a b)

/-- The dict literal of `build_filter_dict` (src/app.py lines 59-66), in
insertion order. -/
def selPairs (set_name card_type color rarity level triggers : Sel) : List (String × Sel) :=
  [("set_name", set_name), ("card_type", card_type), ("color", color),
   ("rarity", rarity), ("level", level), ("triggers", triggers)]

/-- The dict comprehension `f` of `build_filter_dict`: the selections that
survive dropping falsy values and the "(No Filter)" sentinel. -/
def survivors (set_name card_type color rarity level triggers : Sel) : List (String × Sel) :=
  (selPairs set_name card_type color rarity level triggers).filter (fun kv => keep kv.2)

/-- A surviving selection as a filter value (survivors are always strings,
because `None` is falsy). -/
def selVal : Sel → FilterVal
  | some s => .str s
  | none => .str ""

/-- `build_filter_dict` (src/app.py lines 57-72). -/
def build_filter_dict (set_name card_type color rarity level triggers : Sel) : Filter :=
  let f := survivors set_name card_type color rarity level triggers
  if 1 < f.length then
    [("$and", FilterVal.conj (f.map (fun kv => [(kv.1, selVal kv.2)])))]
  else if f.length = 1 then
    f.map (fun kv => (kv.1, selVal kv.2))
  else
    []

/-- A string value that must never appear in a filter: the sentinel or the
empty (falsy) string. -/
def badStr (s : String) : Bool := s == "(No Filter)" || s == ""

mutual

/-- Whether a bad value occurs anywhere inside a filter value. -/
def hasBadVal : FilterVal → Bool
  | .str s => badStr s
  | .conj l => hasBadConjList l

def hasBadConjList : List (List (String × FilterVal)) → Bool
  | [] => false
  | f :: rest => hasBadPairs f || hasBadConjList rest

/-- Whether a bad value occurs anywhere inside a filter dictionary. -/
def hasBadPairs : List (String × FilterVal) → Bool
  | [] => false
  | (_, v) :: rest => hasBadVal v || hasBadPairs rest

end

/-- An embedding vector, the result of `model.encode(text).tolist()`. -/
abbrev Emb := List Rat

/-- A result row as returned by both searches: id, document, metadata, and
distance (`none` models Python `None`). -/
abbrev SRec := String × String × Metadata × Option Rat

instance instDecidableEqSRec : DecidableEq SRec := inferInstance

/-- The keyword arguments assembled by `smart_search` for
`collection.query` (src/app.py lines 88-94). -/
structure QueryArgs : Type where
  query_embeddings : List Emb
  n_results : Nat
  includeFields : List String
  whereFilter : Option Filter

/-- The response of `collection.query` for a single query embedding (the
code reads index `[0]` of each per-query list; these fields are those
`[0]`-components). -/
structure QueryResult : Type where
  ids : List String
  documents : List String
  metadatas : List Metadata
  distances : List Rat

/-- The `query_kwargs` of `smart_search`: the `"where"` key is added only
when the filter dict is truthy (non-empty). -/
def smartQueryArgs (query_embedding : Emb) (n_results : Nat) (filter_dict : Filter) : QueryArgs :=
  ⟨[query_embedding], n_results, ["metadatas", "distances", "documents"],
    if filter_dict.isEmpty then none else some filter_dict⟩

/-- Result of `smart_search` together with counters of how many times the
external `model.encode` and `collection.query` operations were invoked. -/
structure SmartOut : Type where
  result : Except Err (List SRec)
  encodeCalls : Nat
  queryCalls : Nat

/-- `smart_search` (src/app.py lines 82-101), instrumented with call
counters. `encode` and `query` are the external model and collection
operations. -/
def smart_search_instr (encode : String → Except Err Emb)
    (query : QueryArgs → Except Err QueryResult)
    (query_text : String) (n_results : Nat) (filter_dict : Filter) : SmartOut :=
  if strip query_text == "" then ⟨.ok [], 0, 0⟩
  else
    match encode query_text with
    | .error e => ⟨.error e, 1, 0⟩
    | .ok query_embedding =>
      match query (smartQueryArgs query_embedding n_results filter_dict) with
      | .error e => ⟨.error e, 1, 1⟩
      | .ok results =>
        ⟨.ok ((List.range results.ids.length).map (fun i =>
          (results.ids.getD i "", results.documents.getD i "", results.metadatas.getD i [],
            some (results.distances.getD i 0)))), 1, 1⟩

/-- `smart_search` proper: the returned value. -/
def smart_search (encode : String → Except Err Emb)
    (query : QueryArgs → Except Err QueryResult)
    (query_text : String) (n_results : Nat) (filter_dict : Filter) : Except Err (List SRec) :=
  (smart_search_instr encode query query_text n_results filter_dict).result

/-- The keyword arguments assembled by `dumb_search` for `collection.get`
(src/app.py lines 106-111). -/
structure GetArgs : Type where
  includeFields : List String
  limit : Nat
  whereFilter : Option Filter

/-- The response of `collection.get`. -/
structure GetResult : Type where
  ids : List String
  documents : List String
  metadatas : List Metadata

/-- The `query_kwargs` of `dumb_search`: the `"where"` key is added only
when the filter dict is truthy (non-empty). -/
def dumbGetArgs (filter_dict : Filter) (limit : Nat) : GetArgs :=
  ⟨["metadatas", "documents"], limit, if filter_dict.isEmpty then none else some filter_dict⟩

/-- `dumb_search` (src/app.py lines 104-118); the source default for
`limit` is 500. The fourth tuple slot is always `None`. -/
def dumb_search (get : GetArgs → Except Err GetResult) (filter_dict : Filter) (limit : Nat) :
    Except Err (List SRec) :=
  match get (dumbGetArgs filter_dict limit) with
  | .error e => .error e
  | .ok results =>
    .ok ((List.range results.ids.length).map (fun i =>
      (results.ids.getD i "", results.documents.getD i "", results.metadatas.getD i [],
        (none : Option Rat))))

/-- The memoization cache of `get_filtered_cards`, keyed by the call
arguments. -/
abbrev Cache := List ((Filter × Nat) × Except Err (List SRec))

/-- `get_filtered_cards` (src/app.py lines 75-79). Modelled from the spec:
the `st.cache_resource` decorator (external UI framework, not part of this
repository) memoizes on the call arguments — a repeated call with identical
arguments returns the previously stored result instead of recomputing.
Returns the result, the updated cache, and the number of storage queries
issued (0 on a cache hit, 1 on a miss). -/
def get_filtered_cards (get : GetArgs → Except Err GetResult) (cache : Cache)
    (filter_dict : Filter) (limit : Nat) : Except Err (List SRec) × Cache × Nat :=
  match cache.find? (fun e => decide (e.1 = (filter_dict, limit))) with
  | some e => (e.2, cache, 0)
  | none =>
    let r := dumb_search get filter_dict limit
    (r, ((filter_dict, limit), r) :: cache, 1)

instance instDecidableEqExcept {ε α : Type} [DecidableEq ε] [DecidableEq α] :
    DecidableEq (Except ε α)
  | .error a, .error b =>
    if h : a = b then .isTrue (by rw [h]) else .isFalse (fun hh => h (Except.error.inj hh))
  | .error _, .ok _ => .isFalse (fun hh => Except.noConfusion hh)
  | .ok _, .error _ => .isFalse (fun hh => Except.noConfusion hh)
  | .ok a, .ok b =>
    if h : a = b then .isTrue (by rw [h]) else .isFalse (fun hh => h (Except.ok.inj hh))

/-! ### Generic helper lemmas -/

theorem range_map_getD {α : Type} (l : List α) (d : α) :
    (List.range l.length).map (fun i => l.getD i d) = l := by
  induction l with
  | nil => rfl
  | cons a l ih =>
    rw [List.length_cons, List.range_succ_eq_map, List.map_cons, List.map_map]
    have h1 : ((fun i => (a :: l).getD i d) ∘ Nat.succ) = fun i => l.getD i d := rfl
    rw [h1, ih, List.getD_cons_zero]

/-! ### Helper lemmas about the filter builder -/

theorem keep_iff (v : Sel) : keep v = true ↔ ∃ w, v = some w ∧ w ≠ "" ∧ w ≠ "(No Filter)" := by
  cases v with
  | none => simp [keep, truthy]
  | some s => simp [keep, truthy, and_comm]

theorem survivors_keep (s c col r l t : Sel) :
    ∀ kv ∈ survivors s c col r l t, keep kv.2 = true :=
  fun _ hkv => (List.mem_filter.mp hkv).2

theorem hasBad_map_of_keep : ∀ f : List (String × Sel), (∀ kv ∈ f, keep kv.2 = true) →
    hasBadConjList (f.map (fun kv => [(kv.1, selVal kv.2)])) = false ∧
    hasBadPairs (f.map (fun kv => (kv.1, selVal kv.2))) = false := by
  intro f
  induction f with
  | nil => intro _; exact ⟨rfl, rfl⟩
  | cons kv rest ih =>
    intro h
    have hk := h kv (List.mem_cons_self _ _)
    obtain ⟨w, hw, hne, hns⟩ := (keep_iff kv.2).mp hk
    have hrest := ih (fun x hx => h x (List.mem_cons_of_mem _ hx))
    have hv : selVal kv.2 = FilterVal.str w := by rw [hw]; rfl
    have hbad : hasBadVal (selVal kv.2) = false := by
      rw [hv]; simp [hasBadVal, badStr, hne, hns]
    refine ⟨?_, ?_⟩
    · simp [hasBadConjList, hasBadPairs, hbad, hrest.1]
    · simp [hasBadPairs, hbad, hrest.2]

/-! ### Claims C1-C3 -/

/-- Claim C1: for every 6-tuple of facet selections, `build_filter_dict`
returns the empty mapping when no selection survives dropping; a single-key
equality mapping when exactly one survives (never a conjunction wrapper);
and a `"$and"` conjunction wrapper containing exactly one single-key
mapping per surviving selected field when two or more survive. -/
theorem build_filter_dict_cases (s c col r l t : Sel) :
    (survivors s c col r l t = [] → build_filter_dict s c col r l t = []) ∧
    (∀ k v, survivors s c col r l t = [(k, v)] →
      ∃ w, v = some w ∧ build_filter_dict s c col r l t = [(k, FilterVal.str w)]) ∧
    (2 ≤ (survivors s c col r l t).length →
      build_filter_dict s c col r l t =
        [("$and", FilterVal.conj ((survivors s c col r l t).map
          (fun kv => [(kv.1, selVal kv.2)])))] ∧
      ((survivors s c col r l t).map (fun kv => [(kv.1, selVal kv.2)])).length =
        (survivors s c col r l t).length ∧
      ∀ m ∈ (survivors s c col r l t).map (fun kv => [(kv.1, selVal kv.2)]),
        ∃ k w, m = [(k, FilterVal.str w)] ∧ (k, some w) ∈ survivors s c col r l t) := by
  refine ⟨?_, ?_, ?_⟩
  · intro h
    simp [build_filter_dict, h]
  · intro k v h
    have hmem : (k, v) ∈ survivors s c col r l t := by
      rw [h]; exact List.mem_singleton.mpr rfl
    have hk : keep v = true := survivors_keep s c col r l t (k, v) hmem
    obtain ⟨w, hw, _, _⟩ := (keep_iff v).mp hk
    subst hw
    exact ⟨w, rfl, by simp [build_filter_dict, h, selVal]⟩
  · intro h
    have h1 : 1 < (survivors s c col r l t).length := by omega
    refine ⟨by simp [build_filter_dict, h1], List.length_map _ _, ?_⟩
    intro m hm
    obtain ⟨kv, hkv, rfl⟩ := List.mem_map.mp hm
    have hk : keep kv.2 = true := survivors_keep s c col r l t kv hkv
    obtain ⟨w, hw, _, _⟩ := (keep_iff kv.2).mp hk
    refine ⟨kv.1, w, by rw [hw]; rfl, ?_⟩
    have hkv2 : kv = (kv.1, some w) := by rw [← hw]
    rwa [hkv2] at hkv

/-- Witness for C1, covering all three branches at concrete inputs:
no survivor, one survivor, and two survivors. -/
theorem build_filter_dict_cases_witness :
    (build_filter_dict none none none none none none = []) ∧
    (build_filter_dict (some "A") none none none none none =
      [("set_name", FilterVal.str "A")]) ∧
    (build_filter_dict (some "A") (some "B") none none none none =
      [("$and", FilterVal.conj
        [[("set_name", FilterVal.str "A")], [("card_type", FilterVal.str "B")]])]) := by
  refine ⟨?_, ?_, ?_⟩
  · exact (build_filter_dict_cases none none none none none none).1 (by decide)
  · obtain ⟨w, hw, hb⟩ := (build_filter_dict_cases (some "A") none none none none none).2.1
      "set_name" (some "A") (by decide)
    cases hw
    exact hb
  · have h := ((build_filter_dict_cases (some "A") (some "B") none none none none).2.2
      (by decide)).1
    rw [h]
    decide

/-- Claim C2: for every 6-tuple of facet selections, neither the
"(No Filter)" sentinel nor a falsy value appears anywhere in the filter
returned by `build_filter_dict` (Python `None` is not even representable in
a built filter: surviving values are strings). -/
theorem build_filter_dict_no_bad_values (s c col r l t : Sel) :
    hasBadPairs (build_filter_dict s c col r l t) = false := by
  have h2 := hasBad_map_of_keep (survivors s c col r l t) (survivors_keep s c col r l t)
  by_cases h1 : 1 < (survivors s c col r l t).length
  · simp [build_filter_dict, h1, hasBadPairs, hasBadVal, h2.1]
  · by_cases h0 : (survivors s c col r l t).length = 1
    · simp [build_filter_dict, h1, h0, h2.2]
    · simp [build_filter_dict, h1, h0, hasBadPairs]

/-- Claim C3: `smart_search` on a query text that strips to empty returns
the empty list and invokes neither the model's `encode` nor the
collection's `query` operation. -/
theorem smart_search_empty_query (encode : String → Except Err Emb)
    (query : QueryArgs → Except Err QueryResult)
    (query_text : String) (n_results : Nat) (filter_dict : Filter)
    (h : strip query_text = "") :
    smart_search encode query query_text n_results filter_dict = .ok [] ∧
    (smart_search_instr encode query query_text n_results filter_dict).encodeCalls = 0 ∧
    (smart_search_instr encode query query_text n_results filter_dict).queryCalls = 0 := by
  simp [smart_search, smart_search_instr, h]

/-- Witness for C3 at a whitespace-only query, with oracles that fail if
ever invoked. -/
theorem smart_search_empty_query_witness :
    strip " \t\n " = "" ∧
    smart_search (fun _ => .error (.failure "enc")) (fun _ => .error (.failure "q"))
      " \t\n " 5 [] = .ok [] ∧
    (smart_search_instr (fun _ => .error (.failure "enc")) (fun _ => .error (.failure "q"))
      " \t\n " 5 []).encodeCalls = 0 ∧
    (smart_search_instr (fun _ => .error (.failure "enc")) (fun _ => .error (.failure "q"))
      " \t\n " 5 []).queryCalls = 0 := by
  refine ⟨by decide, ?_⟩
  have h := smart_search_empty_query (fun _ => .error (.failure "enc"))
    (fun _ => .error (.failure "q")) " \t\n " 5 [] (by decide)
  exact ⟨h.1, h.2.1, h.2.2⟩

/-! ### Claims C4, C5, C8 -/

/-- Claim C4: for a non-whitespace query text, when the external collection
answers the assembled query with parallel result lists of at most
`n_results` entries whose distances are non-decreasing (the vector
database's contract), `smart_search` returns at most `n_results` records,
their distance slots are exactly those distances, and the records are
sorted by non-decreasing distance. -/
theorem smart_search_bounded_sorted
    (encode : String → Except Err Emb) (query : QueryArgs → Except Err QueryResult)
    (query_text : String) (n_results : Nat) (filter_dict : Filter)
    (emb : Emb) (res : QueryResult) (out : List SRec)
    (htext : strip query_text ≠ "")
    (henc : encode query_text = .ok emb)
    (hq : query (smartQueryArgs emb n_results filter_dict) = .ok res)
    (hout : smart_search encode query query_text n_results filter_dict = .ok out)
    (hbound : res.ids.length ≤ n_results)
    (hdist : res.distances.length = res.ids.length)
    (hsorted : res.distances.Pairwise (· ≤ ·)) :
    out.length ≤ n_results ∧
    out.map (fun r => r.2.2.2) = res.distances.map some ∧
    out.Pairwise (fun a b => ∀ x ∈ a.2.2.2, ∀ y ∈ b.2.2.2, x ≤ y) := by
  have hcond : (strip query_text == "") = false := by
    simpa using htext
  rw [smart_search, smart_search_instr] at hout
  rw [hcond] at hout
  simp only [Bool.false_eq_true, if_false, henc, hq] at hout
  have hout' : out = (List.range res.ids.length).map (fun i =>
      (res.ids.getD i "", res.documents.getD i "", res.metadatas.getD i [],
        some (res.distances.getD i 0))) := (Except.ok.inj hout).symm
  subst hout'
  refine ⟨by simpa using hbound, ?_, ?_⟩
  · rw [List.map_map]
    have hc : ((fun r : SRec => r.2.2.2) ∘ (fun i =>
        ((res.ids.getD i "", res.documents.getD i "", res.metadatas.getD i [],
          some (res.distances.getD i 0)) : SRec))) =
        fun i => some (res.distances.getD i 0) := rfl
    rw [hc, ← hdist]
    have h2 : (fun i => some (res.distances.getD i (0 : Rat))) =
        (some ∘ fun i => res.distances.getD i (0 : Rat)) := rfl
    rw [h2, ← List.map_map, range_map_getD]
  · rw [List.pairwise_map]
    refine (List.pairwise_lt_range res.ids.length).imp_of_mem ?_
    intro i j hi hj hij
    intro x hx y hy
    rw [Option.mem_def, Option.some.injEq] at hx hy
    subst hx
    subst hy
    rw [List.mem_range] at hi hj
    have hi' : i < res.distances.length := by omega
    have hj' : j < res.distances.length := by omega
    rw [List.getD_eq_getElem res.distances 0 hi', List.getD_eq_getElem res.distances 0 hj']
    exact List.pairwise_iff_getElem.mp hsorted i j hi' hj' hij

/-- Witness for C4: a concrete model and collection obeying the contract. -/
theorem smart_search_bounded_sorted_witness :
    strip "hi" ≠ "" ∧
    smart_search (fun _ => .ok [(1 : Rat)])
      (fun _ => .ok ⟨["id1", "id2"], ["d1", "d2"], [[], []], [(1 : Rat), (3 : Rat)]⟩)
      "hi" 2 [] = .ok [("id1", "d1", [], some 1), ("id2", "d2", [], some 3)] ∧
    ([("id1", "d1", [], some 1), ("id2", "d2", [], some 3)] : List SRec).length ≤ 2 ∧
    ([("id1", "d1", [], some 1), ("id2", "d2", [], some 3)] : List SRec).map
      (fun r => r.2.2.2) = [(1 : Rat), (3 : Rat)].map some := by
  have h := smart_search_bounded_sorted (fun _ => .ok [(1 : Rat)])
    (fun _ => .ok ⟨["id1", "id2"], ["d1", "d2"], [[], []], [(1 : Rat), (3 : Rat)]⟩)
    "hi" 2 [] [(1 : Rat)] ⟨["id1", "id2"], ["d1", "d2"], [[], []], [(1 : Rat), (3 : Rat)]⟩
    [("id1", "d1", [], some 1), ("id2", "d2", [], some 3)]
    (by decide) rfl rfl (by decide) (by decide) (by decide) (by decide)
  exact ⟨by decide, by decide, h.1, h.2.1⟩

/-- Claim C5: when the external collection honours the row limit of a `get`
call (the vector database's contract), `dumb_search` returns at most
`limit` records and every returned record's distance slot is `none`. -/
theorem dumb_search_bounded_no_distance
    (get : GetArgs → Except Err GetResult) (filter_dict : Filter) (limit : Nat)
    (out : List SRec)
    (hcontract : ∀ a r, get a = .ok r → r.ids.length ≤ a.limit)
    (hout : dumb_search get filter_dict limit = .ok out) :
    out.length ≤ limit ∧ ∀ r ∈ out, r.2.2.2 = none := by
  rw [dumb_search] at hout
  cases hget : get (dumbGetArgs filter_dict limit) with
  | error e => rw [hget] at hout; exact absurd hout (by simp)
  | ok res =>
    rw [hget] at hout
    have hout' : out = (List.range res.ids.length).map (fun i =>
        (res.ids.getD i "", res.documents.getD i "", res.metadatas.getD i [],
          (none : Option Rat))) := (Except.ok.inj hout).symm
    subst hout'
    refine ⟨by simpa using hcontract _ _ hget, ?_⟩
    intro r hr
    obtain ⟨i, _, rfl⟩ := List.mem_map.mp hr
    rfl

/-- Witness for C5, with a collection that truncates its answer to the
requested limit. -/
theorem dumb_search_bounded_no_distance_witness :
    dumb_search
      (fun a => .ok ⟨["a"].take a.limit, ["doc"].take a.limit, [[]].take a.limit⟩)
      [] 3 = .ok [("a", "doc", [], none)] ∧
    ([(("a" : String), ("doc" : String), ([] : Metadata), (none : Option Rat))]).length ≤ 3 := by
  have h := dumb_search_bounded_no_distance
    (fun a => .ok ⟨["a"].take a.limit, ["doc"].take a.limit, [[]].take a.limit⟩)
    [] 3 [("a", "doc", [], none)]
    (by
      intro a r hr
      have hr' : r = ⟨["a"].take a.limit, ["doc"].take a.limit, [[]].take a.limit⟩ :=
        (Except.ok.inj hr).symm
      subst hr'
      simp [Nat.min_le_right 1 a.limit])
    (by decide)
  exact ⟨by decide, h.1⟩

/-- Claim C8: `get_filtered_cards` returns exactly what a direct
`dumb_search` with the same filter and limit returns (given that every
cache entry records the `dumb_search` result for its key), and an
immediately repeated call with identical arguments returns the previously
computed result while issuing zero storage queries. -/
theorem get_filtered_cards_memoized
    (get : GetArgs → Except Err GetResult) (cache : Cache) (filter_dict : Filter) (limit : Nat)
    (hinv : ∀ k v, (k, v) ∈ cache → v = dumb_search get k.1 k.2) :
    (get_filtered_cards get cache filter_dict limit).1 = dumb_search get filter_dict limit ∧
    (get_filtered_cards get (get_filtered_cards get cache filter_dict limit).2.1
      filter_dict limit).1 = (get_filtered_cards get cache filter_dict limit).1 ∧
    (get_filtered_cards get (get_filtered_cards get cache filter_dict limit).2.1
      filter_dict limit).2.2 = 0 := by
  cases hfind : cache.find? (fun e => decide (e.1 = (filter_dict, limit))) with
  | some e =>
    have hpe : e.1 = (filter_dict, limit) := by
      have := List.find?_some hfind
      simpa using this
    have hmem : e ∈ cache := List.mem_of_find?_eq_some hfind
    have hre : e.2 = dumb_search get filter_dict limit := by
      have h := hinv e.1 e.2 hmem
      rw [hpe] at h
      exact h
    have hfirst : get_filtered_cards get cache filter_dict limit = (e.2, cache, 0) := by
      rw [get_filtered_cards, hfind]
    rw [hfirst]
    exact ⟨hre, by rw [hfirst], by rw [hfirst]⟩
  | none =>
    have hfirst : get_filtered_cards get cache filter_dict limit =
        (dumb_search get filter_dict limit,
          ((filter_dict, limit), dumb_search get filter_dict limit) :: cache, 1) := by
      rw [get_filtered_cards, hfind]
    have hhead : (fun e : (Filter × Nat) × Except Err (List SRec) =>
        decide (e.1 = (filter_dict, limit)))
        ((filter_dict, limit), dumb_search get filter_dict limit) = true := by
      simp
    have hsecond : get_filtered_cards get
        (((filter_dict, limit), dumb_search get filter_dict limit) :: cache)
        filter_dict limit = (dumb_search get filter_dict limit,
          ((filter_dict, limit), dumb_search get filter_dict limit) :: cache, 0) := by
      rw [get_filtered_cards, List.find?_cons_of_pos cache hhead]
    rw [hfirst]
    exact ⟨rfl, by rw [hsecond], by rw [hsecond]⟩

/-- Witness for C8: an empty cache, so the first call misses and the
second hits. -/
theorem get_filtered_cards_memoized_witness :
    (get_filtered_cards (fun _ => .ok ⟨[], [], []⟩) [] [] 3).1 =
      dumb_search (fun _ => .ok ⟨[], [], []⟩) [] 3 ∧
    (get_filtered_cards (fun _ => .ok ⟨[], [], []⟩)
      (get_filtered_cards (fun _ => .ok ⟨[], [], []⟩) [] [] 3).2.1 [] 3).2.2 = 0 := by
  have h := get_filtered_cards_memoized (fun _ => .ok ⟨[], [], []⟩) [] [] 3
    (by intro k v hv; simp at hv)
  exact ⟨h.1, h.2.2⟩

/-! ### Helper lemmas about the facet scan -/

theorem guvLoop_stop (records : List Metadata) (field : String) (offset : Nat)
    (acc : List String) (h : records.length ≤ offset) :
    guvLoop records field offset acc = (.ok acc, 1) := by
  rw [guvLoop.eq_def]
  have hd : records.drop offset = [] := List.drop_eq_nil_iff.mpr h
  simp [hd]

theorem guvLoop_step (records : List Metadata) (field : String) (offset : Nat)
    (acc : List String) (h : offset < records.length) :
    guvLoop records field offset acc =
      match pageVals field ((records.drop offset).take 1000) acc with
      | .error e => (.error e, 1)
      | .ok acc' =>
        let r := guvLoop records field (offset + 1000) acc'
        (r.1, r.2 + 1) := by
  rw [guvLoop.eq_def]
  have hd : records.drop offset ≠ [] := by
    rw [ne_eq, List.drop_eq_nil_iff]
    omega
  have ht : (records.drop offset).take 1000 ≠ [] := by
    rw [ne_eq, List.take_eq_nil_iff]
    simp [hd]
  simp [List.isEmpty_iff, ht]

theorem pageVals_ok (field : String) :
    ∀ (page : List Metadata) (acc : List String),
      (∀ md ∈ page, strOnly md field = true) →
      pageVals field page acc =
        .ok (page.foldl (fun a md => addVal a (recordVal md field)) acc)
  | [], _, _ => rfl
  | md :: rest, acc, h => by
    have hmd := h md (List.mem_cons_self _ _)
    cases hval : mdGet md field (.str "") with
    | str s =>
      have hrv : recordVal md field = strip s := by rw [recordVal, hval]
      have hrest := pageVals_ok field rest
        (if strip s ≠ "" then setAdd acc (strip s) else acc)
        (fun x hx => h x (List.mem_cons_of_mem _ hx))
      simp only [pageVals, hval, stripVal, hrest, List.foldl_cons]
      rw [addVal, hrv]
    | other =>
      simp only [strOnly, hval] at hmd
      exact Bool.noConfusion hmd

theorem guvLoop_ok (records : List Metadata) (field : String)
    (h : ∀ md ∈ records, strOnly md field = true) (offset : Nat) (acc : List String) :
    (guvLoop records field offset acc).1 =
      .ok ((records.drop offset).foldl (fun a md => addVal a (recordVal md field)) acc) := by
  by_cases hoff : records.length ≤ offset
  · have hd : records.drop offset = [] := List.drop_eq_nil_iff.mpr hoff
    rw [guvLoop_stop records field offset acc hoff, hd]
    rfl
  · have hlt : offset < records.length := by omega
    have hsub : ∀ md ∈ (records.drop offset).take 1000, strOnly md field = true := by
      intro md hmd
      exact h md ((List.drop_sublist offset records).subset
        ((List.take_sublist 1000 (records.drop offset)).subset hmd))
    rw [guvLoop_step records field offset acc hlt,
      pageVals_ok field ((records.drop offset).take 1000) acc hsub]
    have hrec := guvLoop_ok records field h (offset + 1000)
      (((records.drop offset).take 1000).foldl (fun a md => addVal a (recordVal md field)) acc)
    have h1 := List.take_append_drop 1000 (records.drop offset)
    rw [List.drop_drop] at h1
    dsimp only
    rw [hrec, ← List.foldl_append, h1]
termination_by records.length - offset
decreasing_by omega

theorem guvLoop_reads_le (records : List Metadata) (field : String) (offset : Nat)
    (acc : List String) :
    (guvLoop records field offset acc).2 ≤ (records.length - offset + 999) / 1000 + 1 := by
  by_cases hoff : records.length ≤ offset
  · rw [guvLoop_stop records field offset acc hoff]
    omega
  · have hlt : offset < records.length := by omega
    rw [guvLoop_step records field offset acc hlt]
    cases hpv : pageVals field ((records.drop offset).take 1000) acc with
    | error e =>
      simp only [hpv]
      omega
    | ok acc' =>
      have hrec := guvLoop_reads_le records field (offset + 1000) acc'
      simp only [hpv]
      omega
termination_by records.length - offset
decreasing_by omega

theorem guvLoop_reads_eq (records : List Metadata) (field : String)
    (h : ∀ md ∈ records, strOnly md field = true) (offset : Nat) (acc : List String) :
    (guvLoop records field offset acc).2 = (records.length - offset + 999) / 1000 + 1 := by
  by_cases hoff : records.length ≤ offset
  · rw [guvLoop_stop records field offset acc hoff]
    omega
  · have hlt : offset < records.length := by omega
    have hsub : ∀ md ∈ (records.drop offset).take 1000, strOnly md field = true := by
      intro md hmd
      exact h md ((List.drop_sublist offset records).subset
        ((List.take_sublist 1000 (records.drop offset)).subset hmd))
    rw [guvLoop_step records field offset acc hlt,
      pageVals_ok field ((records.drop offset).take 1000) acc hsub]
    have hrec := guvLoop_reads_eq records field h (offset + 1000)
      (((records.drop offset).take 1000).foldl (fun a md => addVal a (recordVal md field)) acc)
    dsimp only
    rw [hrec]
    omega
termination_by records.length - offset
decreasing_by omega

theorem mem_addVal (acc : List String) (v s : String) :
    s ∈ addVal acc v ↔ s ∈ acc ∨ (s ≠ "" ∧ v = s) := by
  rw [addVal, setAdd]
  by_cases hv : v = ""
  · rw [if_neg (fun hne => hne hv)]
    constructor
    · exact Or.inl
    · rintro (hs | ⟨hne, hvs⟩)
      · exact hs
      · exact absurd (hvs ▸ hv) hne
  · by_cases hin : v ∈ acc
    · rw [if_pos hv, if_pos hin]
      constructor
      · exact Or.inl
      · rintro (hs | ⟨_, hvs⟩)
        · exact hs
        · exact hvs ▸ hin
    · rw [if_pos hv, if_neg hin, List.mem_cons]
      constructor
      · rintro (hvs | hs)
        · refine Or.inr ⟨?_, hvs.symm⟩
          rw [hvs]
          exact hv
        · exact Or.inl hs
      · rintro (hs | ⟨_, hvs⟩)
        · exact Or.inr hs
        · exact Or.inl hvs.symm

theorem mem_foldl_addVal (field : String) :
    ∀ (l : List Metadata) (acc : List String) (s : String),
      s ∈ l.foldl (fun a md => addVal a (recordVal md field)) acc ↔
        s ∈ acc ∨ (s ≠ "" ∧ ∃ md ∈ l, recordVal md field = s)
  | [], acc, s => by simp
  | md :: rest, acc, s => by
    rw [List.foldl_cons, mem_foldl_addVal field rest _ s, mem_addVal]
    constructor
    · rintro ((hs | ⟨hne, hv⟩) | ⟨hne, x, hx, hv⟩)
      · exact Or.inl hs
      · exact Or.inr ⟨hne, md, List.mem_cons_self _ _, hv⟩
      · exact Or.inr ⟨hne, x, List.mem_cons_of_mem _ hx, hv⟩
    · rintro (hs | ⟨hne, x, hx, hv⟩)
      · exact Or.inl (Or.inl hs)
      · rcases List.mem_cons.mp hx with hx | hx
        · exact Or.inl (Or.inr ⟨hne, by rw [← hx]; exact hv⟩)
        · exact Or.inr ⟨hne, x, hx, hv⟩

theorem nodup_addVal (acc : List String) (v : String) (h : acc.Nodup) :
    (addVal acc v).Nodup := by
  rw [addVal, setAdd]
  by_cases hv : v = ""
  · simp [hv, h]
  · by_cases hin : v ∈ acc
    · simp [hv, hin, h]
    · simp [hv, hin, h, List.nodup_cons]

theorem nodup_foldl_addVal (field : String) :
    ∀ (l : List Metadata) (acc : List String), acc.Nodup →
      (l.foldl (fun a md => addVal a (recordVal md field)) acc).Nodup
  | [], _, h => h
  | md :: rest, acc, h => by
    rw [List.foldl_cons]
    exact nodup_foldl_addVal field rest _ (nodup_addVal acc _ h)

/-- The full characterization of `get_unique_values` on a collection whose
stored values for `field` are all strings. -/
theorem get_unique_values_ok (records : List Metadata) (field : String)
    (h : ∀ md ∈ records, strOnly md field = true) :
    get_unique_values records field =
      .ok (pySorted (records.foldl (fun a md => addVal a (recordVal md field)) [])) := by
  rw [get_unique_values]
  have h0 := guvLoop_ok records field h 0 []
  rw [List.drop_zero] at h0
  rw [h0]

/-! ### Claims C6, C7, C9, C10 -/

/-- Claim C6: on a collection whose values for the field are strings,
`get_unique_values` returns the sorted (code-point order, case-sensitive)
duplicate-free list of exactly the non-empty stripped values of the field
across all records; in particular, color values `["Red", "red", "", "Blue"]`
yield `["Blue", "Red", "red"]` (no case-folding). -/
theorem get_unique_values_sorted_distinct :
    (∀ (records : List Metadata) (field : String),
      (∀ md ∈ records, strOnly md field = true) →
      ∃ l, get_unique_values records field = .ok l ∧ l.Sorted strLe ∧ l.Nodup ∧
        ∀ s, s ∈ l ↔ (s ≠ "" ∧ ∃ md ∈ records, recordVal md field = s)) ∧
    get_unique_values
      [[("color", .str "Red")], [("color", .str "red")], [("color", .str "")],
        [("color", .str "Blue")]] "color" = .ok ["Blue", "Red", "red"] := by
  constructor
  · intro records field h
    refine ⟨pySorted (records.foldl (fun a md => addVal a (recordVal md field)) []),
      get_unique_values_ok records field h, List.sorted_insertionSort strLe _, ?_, ?_⟩
    · exact (List.perm_insertionSort strLe _).nodup_iff.mpr
        (nodup_foldl_addVal field records [] List.nodup_nil)
    · intro s
      rw [pySorted, (List.perm_insertionSort strLe _).mem_iff,
        mem_foldl_addVal field records [] s]
      simp
  · simp [get_unique_values, guvLoop_step, guvLoop_stop]
    decide

/-- Witness for C6: the general part applied to a small collection with a
missing field and a value needing stripping. -/
theorem get_unique_values_sorted_distinct_witness :
    ([[("color", MetaVal.str " hi ")], [("kind", MetaVal.other)]].all
      (fun md => strOnly md "color")) = true ∧
    ∃ l, get_unique_values [[("color", MetaVal.str " hi ")], [("kind", MetaVal.other)]]
        "color" = .ok l ∧ l.Sorted strLe ∧ l.Nodup ∧
      ∀ s, s ∈ l ↔ (s ≠ "" ∧
        ∃ md ∈ [[("color", MetaVal.str " hi ")], [("kind", MetaVal.other)]],
          recordVal md "color" = s) :=
  ⟨by decide, get_unique_values_sorted_distinct.1
    [[("color", MetaVal.str " hi ")], [("kind", MetaVal.other)]] "color" (by decide)⟩

/-- Claim C7: the pagination loop of `get_unique_values` is total and
performs finitely many storage reads: never more than one full scan in
pages of 1000 (plus the final empty page), and exactly that many when no
record makes the scan raise. -/
theorem get_unique_values_scan_reads (records : List Metadata) (field : String) :
    guvReads records field ≤ (records.length + 999) / 1000 + 1 ∧
    ((∀ md ∈ records, strOnly md field = true) →
      guvReads records field = (records.length + 999) / 1000 + 1) := by
  constructor
  · have h := guvLoop_reads_le records field 0 []
    rw [Nat.sub_zero] at h
    exact h
  · intro hstr
    have h := guvLoop_reads_eq records field hstr 0 []
    rw [Nat.sub_zero] at h
    exact h

/-- Witness for C7: a 1-record collection costs two reads (its page, then
the empty page). -/
theorem get_unique_values_scan_reads_witness :
    ([[("color", MetaVal.str "a")]].all (fun md => strOnly md "color")) = true ∧
    guvReads [[("color", MetaVal.str "a")]] "color" =
      (([[("color", MetaVal.str "a")]] : List Metadata).length + 999) / 1000 + 1 :=
  ⟨by decide,
    (get_unique_values_scan_reads [[("color", MetaVal.str "a")]] "color").2 (by decide)⟩

/-- If the scan reaches its `n`-th page read and that read raises — every
earlier page was returned non-empty with string values, so the loop kept
going — the loop returns that same error. -/
theorem guvLoopF_error_propagates (getPage : Nat → Nat → Except Err (List Metadata))
    (field : String) :
    ∀ (n fuel offset : Nat) (acc : List String) (e : Err),
      (∀ i < n, ∃ page, getPage 1000 (offset + 1000 * i) = .ok page ∧ page ≠ [] ∧
        ∀ md ∈ page, strOnly md field = true) →
      getPage 1000 (offset + 1000 * n) = .error e →
      n < fuel →
      guvLoopF getPage field fuel offset acc = .error e
  | _, 0, _, _, _, _, _, hfuel => absurd hfuel (Nat.not_lt_zero _)
  | 0, fuel + 1, offset, acc, e, _, herr, _ => by
    rw [Nat.mul_zero, Nat.add_zero] at herr
    rw [guvLoopF, herr]
  | n + 1, fuel + 1, offset, acc, e, hok, herr, hfuel => by
    obtain ⟨page, hpage, hne, hstr⟩ := hok 0 (Nat.succ_pos n)
    rw [Nat.mul_zero, Nat.add_zero] at hpage
    have hempty : page.isEmpty = false := by
      cases page with
      | nil => exact absurd rfl hne
      | cons a l => rfl
    rw [guvLoopF, hpage]
    simp only [hempty, Bool.false_eq_true, if_false, pageVals_ok field page acc hstr]
    exact guvLoopF_error_propagates getPage field n fuel (offset + 1000)
      (page.foldl (fun a md => addVal a (recordVal md field)) acc) e
      (fun i hi => by
        obtain ⟨p, hp, hpne, hpstr⟩ := hok (i + 1) (by omega)
        refine ⟨p, ?_, hpne, hpstr⟩
        have harith : offset + 1000 + 1000 * i = offset + 1000 * (i + 1) := by ring
        rw [harith]
        exact hp)
      (by
        have harith : offset + 1000 + 1000 * n = offset + 1000 * (n + 1) := by ring
        rw [harith]
        exact herr)
      (by omega)

/-- Claim C9: an error raised by the storage read (at any page of the scan
in `get_unique_values`) or by the model's `encode` or the collection's
`query` (in `smart_search`) is returned to the caller unchanged: no retry,
no substitute result. -/
theorem errors_propagate_unchanged :
    (∀ (getPage : Nat → Nat → Except Err (List Metadata)) (field : String) (fuel n : Nat)
      (e : Err),
      (∀ i < n, ∃ page, getPage 1000 (1000 * i) = .ok page ∧ page ≠ [] ∧
        ∀ md ∈ page, strOnly md field = true) →
      getPage 1000 (1000 * n) = .error e →
      n < fuel →
      get_unique_valuesF getPage field fuel = .error e) ∧
    (∀ (encode : String → Except Err Emb) (query : QueryArgs → Except Err QueryResult)
      (query_text : String) (n_results : Nat) (filter_dict : Filter) (e : Err),
      strip query_text ≠ "" → encode query_text = .error e →
      smart_search encode query query_text n_results filter_dict = .error e) ∧
    (∀ (encode : String → Except Err Emb) (query : QueryArgs → Except Err QueryResult)
      (query_text : String) (n_results : Nat) (filter_dict : Filter) (emb : Emb) (e : Err),
      strip query_text ≠ "" → encode query_text = .ok emb →
      query (smartQueryArgs emb n_results filter_dict) = .error e →
      smart_search encode query query_text n_results filter_dict = .error e) := by
  refine ⟨?_, ?_, ?_⟩
  · intro getPage field fuel n e hok herr hfuel
    have h := guvLoopF_error_propagates getPage field n fuel 0 [] e
      (fun i hi => by
        obtain ⟨p, hp, hpne, hpstr⟩ := hok i hi
        refine ⟨p, ?_, hpne, hpstr⟩
        rw [Nat.zero_add]
        exact hp)
      (by rw [Nat.zero_add]; exact herr)
      hfuel
    rw [get_unique_valuesF, h]
  · intro encode query query_text n_results filter_dict e htext herr
    have hcond : (strip query_text == "") = false := by simpa using htext
    rw [smart_search, smart_search_instr, hcond]
    simp only [Bool.false_eq_true, if_false, herr]
  · intro encode query query_text n_results filter_dict emb e htext henc herr
    have hcond : (strip query_text == "") = false := by simpa using htext
    rw [smart_search, smart_search_instr, hcond]
    simp only [Bool.false_eq_true, if_false, henc, herr]

/-- Witness for C9: a storage read that succeeds on the first page and
fails on the second (so the error surfaces mid-scan, not at offset 0), a
failing encoder, and a failing query, each at a concrete input. -/
theorem errors_propagate_unchanged_witness :
    get_unique_valuesF
      (fun _ offset => if offset == 0 then .ok [[("color", MetaVal.str "a")]]
        else .error (.failure "db down")) "color" 2 = .error (.failure "db down") ∧
    smart_search (fun _ => .error (.failure "model down")) (fun _ => .ok ⟨[], [], [], []⟩)
      "q" 5 [] = .error (.failure "model down") ∧
    smart_search (fun _ => .ok []) (fun _ => .error (.failure "db down"))
      "q" 5 [] = .error (.failure "db down") :=
  ⟨errors_propagate_unchanged.1
      (fun _ offset => if offset == 0 then .ok [[("color", MetaVal.str "a")]]
        else .error (.failure "db down")) "color" 2 1 (.failure "db down")
      (fun i hi => by
        have hi0 : i = 0 := by omega
        subst hi0
        exact ⟨[[("color", MetaVal.str "a")]], rfl, by decide, by decide⟩)
      rfl (by omega),
    errors_propagate_unchanged.2.1 (fun _ => .error (.failure "model down"))
      (fun _ => .ok ⟨[], [], [], []⟩) "q" 5 [] (.failure "model down") (by decide) rfl,
    errors_propagate_unchanged.2.2 (fun _ => .ok []) (fun _ => .error (.failure "db down"))
      "q" 5 [] [] (.failure "db down") (by decide) rfl rfl⟩

/-- Claim C10: `get_unique_values` is total exactly under the precondition
that every stored value of the requested field is a string: a non-string
value makes the `.strip()` call raise AttributeError, while under the
precondition records missing the field or holding whitespace-only values
are skipped without error. -/
theorem get_unique_values_string_precondition :
    (∀ (records : List Metadata) (field : String),
      (∀ md ∈ records, strOnly md field = true) →
      (get_unique_values records field).isOk = true) ∧
    get_unique_values [[("color", MetaVal.other)]] "color" = .error .attributeError ∧
    get_unique_values [[("kind", MetaVal.str "x")], [("color", MetaVal.str " \t ")]]
      "color" = .ok [] := by
  refine ⟨?_, ?_, ?_⟩
  · intro records field h
    rw [get_unique_values_ok records field h]
    rfl
  · simp [get_unique_values, guvLoop_step, guvLoop_stop]
    decide
  · simp [get_unique_values, guvLoop_step, guvLoop_stop]
    decide

/-- Witness for C10: the totality part applied at a concrete all-string
collection. -/
theorem get_unique_values_string_precondition_witness :
    ([[("color", MetaVal.str "a")]].all (fun md => strOnly md "color")) = true ∧
    (get_unique_values [[("color", MetaVal.str "a")]] "color").isOk = true :=
  ⟨by decide, get_unique_values_string_precondition.1
    [[("color", MetaVal.str "a")]] "color" (by decide)⟩

end WeissDB
